import Mathlib

/-!
Verification development for the school-transport application-form tool.

The definitions below are a shallow embedding of the registration parsing
and reconciliation engine found in `intek/application/model.py` and
`intek/application/etl.py`.  Python strings are modelled as Lean `String`
(operating on their underlying `List Char`), machine-independent Python
integers as `Nat`, dictionaries as association lists, and raised
exceptions as `Except` values.  Functions are kept executable so that
every concrete statement can be checked by `decide` or `rfl`.
-/

/-! ## Character and string primitives

Python's `str.strip`, `str.split`, `str.lower`, `str.upper`,
`str.capitalize` and `str.zfill` are modelled on the character lists
underlying Lean strings.  Case mapping is modelled on the ASCII range;
the Python originals use the full Unicode mapping, but every string this
development evaluates on is either ASCII or caseless (Hangul), where the
two mappings agree.
-/

/-- Whitespace characters recognised by Python's `str.split` / `str.strip`
(space, tab, newline, carriage return, vertical tab, form feed). -/
def isSpaceChar (c : Char) : Bool :=
  [32, 9, 10, 13, 11, 12].contains c.toNat

/-- ASCII decimal digit. -/
def isDigitChar (c : Char) : Bool :=
  48 ≤ c.toNat && c.toNat ≤ 57

/-- ASCII lower-case mapping (models `str.lower` on the inputs used here). -/
def toLowerChar (c : Char) : Char :=
  if 65 ≤ c.toNat && c.toNat ≤ 90 then Char.ofNat (c.toNat + 32) else c

/-- ASCII upper-case mapping (models `str.upper` on the inputs used here). -/
def toUpperChar (c : Char) : Char :=
  if 97 ≤ c.toNat && c.toNat ≤ 122 then Char.ofNat (c.toNat - 32) else c

/-- Drop leading whitespace. -/
def dropLeadingSpace (l : List Char) : List Char :=
  l.dropWhile isSpaceChar

/-- Python `str.strip`: remove leading and trailing whitespace. -/
def stripChars (l : List Char) : List Char :=
  ((l.dropWhile isSpaceChar).reverse.dropWhile isSpaceChar).reverse

/-- Python `str.strip` lifted to `String`. -/
def stripString (s : String) : String :=
  String.mk (stripChars s.data)

/-- Accumulator-based splitter behind `splitWords`. -/
def wordsAux : List Char → List Char → List (List Char)
  | [], acc => if acc.isEmpty then [] else [acc.reverse]
  | c :: cs, acc =>
    if isSpaceChar c then
      if acc.isEmpty then wordsAux cs [] else acc.reverse :: wordsAux cs []
    else
      wordsAux cs (c :: acc)

/-- Python `str.split()` with no argument: maximal runs of non-whitespace
characters, with no empty components. -/
def splitWords (l : List Char) : List (List Char) :=
  wordsAux l []

/-- Python `' '.join(...)` on character lists. -/
def joinSpace : List (List Char) → List Char
  | [] => []
  | [w] => w
  | w :: ws => w ++ ' ' :: joinSpace ws

/-! ## Name normalization (`Person.normalize_name` and friends) -/

/-- Code points of the punctuation class stripped by
`Person.normalize_name`, i.e. the regex character class
`. , backslash / # ! $ % ^ & * ; : braces = - _ backquote ~ ( ) < > " apostrophe`. -/
def punctuationCodes : List Nat :=
  [46, 44, 92, 47, 35, 33, 36, 37, 94, 38, 42, 59, 58,
   123, 125, 61, 45, 95, 96, 126, 40, 41, 60, 62, 34, 39]

/-- Membership in the punctuation class of `Person.normalize_name`. -/
def isPunctuationChar (c : Char) : Bool :=
  punctuationCodes.contains c.toNat

/-- The `re.sub` step of `Person.normalize_name`: replace every
punctuation character with a space. -/
def replacePunctuation (l : List Char) : List Char :=
  l.map (fun c => if isPunctuationChar c then ' ' else c)

/-- `Person.normalize_name`: strip punctuation, then collapse whitespace
runs via `' '.join(s.split())`. -/
def normalize_name (name : String) : String :=
  String.mk (joinSpace (splitWords (replacePunctuation name.data)))

/-! ## Locales

The tool manipulates the four locales of the localized forms.  Equality
is by tag, mirroring `majormode.perseus.model.locale.Locale`. -/

/-- The four supported form locales (English, French, Korean, Vietnamese). -/
inductive FormLocale where
  | eng
  | fra
  | kor
  | vie
deriving DecidableEq, Repr

/-- `DEFAULT_LOCALE` of the perseus library, used by `detect_locale`
fallback and `Person.__init__`. -/
def DEFAULT_LOCALE : FormLocale := FormLocale.eng

/-- Python `component.lower().capitalize()`: lower-case the word, then
upper-case its first character. -/
def capitalizeLoweredWord : List Char → List Char
  | [] => []
  | c :: cs => toUpperChar (toLowerChar c) :: cs.map toLowerChar

/-- `Person.format_first_name`: normalize, then capitalize every word
component.  The `locale` parameter is accepted but — exactly as in the
source — never inspected. -/
def format_first_name (firstName : String) (_locale : FormLocale) : String :=
  String.mk (joinSpace ((splitWords (normalize_name firstName).data).map capitalizeLoweredWord))

/-- `Person.format_last_name`: normalize, then upper-case.  The `locale`
parameter is accepted but — exactly as in the source — never inspected. -/
def format_last_name (lastName : String) (_locale : FormLocale) : String :=
  String.mk ((normalize_name lastName).data.map toUpperChar)

/-- `Person.format_fullname`: western order (first name first) for French
and English, family-name-first otherwise. -/
def format_fullname (lastName firstName : String) (locale : FormLocale) : String :=
  if locale = FormLocale.fra ∨ locale = FormLocale.eng then
    firstName ++ " " ++ lastName
  else
    lastName ++ " " ++ firstName

/-! ## Grade levels (`GRADE_NAMES`, `Child.parse_grade_level`) -/

/-- The fixed ordered mapping from education grade names to levels
(`GRADE_NAMES` in `model.py`), in source order. -/
def GRADE_NAMES : List (String × Nat) :=
  [("TPS", 1), ("PS", 2), ("MS", 3), ("GS", 4), ("CP", 5),
   ("CE1", 6), ("CE2", 7), ("CM1", 8), ("CM2", 9),
   ("Sixième", 10), ("Cinquième", 11), ("Quatrième", 12), ("Troisième", 13),
   ("Seconde", 14), ("Première", 15), ("Terminale", 16)]

/-- Python `needle in haystack` on character lists: substring containment. -/
def containsSubstring (needle : List Char) : List Char → Bool
  | [] => needle.isEmpty
  | c :: cs => needle.isPrefixOf (c :: cs) || containsSubstring needle cs

/-- `Child.parse_grade_level`: first entry of `GRADE_NAMES` whose name is
a substring of the argument wins; when no entry matches, the Python
function falls off the loop and silently returns `None`. -/
def parse_grade_level (gradeName : String) : Option Nat :=
  (GRADE_NAMES.find? (fun p => containsSubstring p.1.data gradeName.data)).map Prod.snd

/-! ## Dates (`datetime.strptime` with the two fixed format strings)

Only the formats `%m/%d/%Y` and `%m/%d/%Y %H:%M:%S` are used by the
source.  The model validates the same ranges the C `strptime`-style
parser behind `datetime.strptime` enforces (calendar-valid day of month,
month 1..12, hour/minute/second ranges), and rejects everything else. -/

/-- A calendar date as produced by `datetime.strptime(dob, "%m/%d/%Y")`. -/
structure SimpleDate where
  month : Nat
  day : Nat
  year : Nat
deriving DecidableEq, Repr

/-- A timestamp as produced by
`datetime.strptime(t, "%m/%d/%Y %H:%M:%S")`. -/
structure SimpleDateTime where
  date : SimpleDate
  hour : Nat
  minute : Nat
  second : Nat
deriving DecidableEq, Repr

/-- Leap-year rule of the Gregorian calendar. -/
def isLeapYear (y : Nat) : Bool :=
  (y % 4 = 0 && y % 100 ≠ 0) || y % 400 = 0

/-- Number of days of a month. -/
def daysInMonth (m y : Nat) : Nat :=
  if m = 2 then (if isLeapYear y then 29 else 28)
  else if [4, 6, 9, 11].contains m then 30
  else 31

/-- A numeric field of at most `maxLen` digits, as accepted by the
`%m`/`%d`/`%Y`/`%H`/`%M`/`%S` directives. -/
def parseNumericField (maxLen : Nat) (l : List Char) : Option Nat :=
  if l.isEmpty || decide (maxLen < l.length) || !(l.all isDigitChar) then none
  else some (l.foldl (fun acc c => acc * 10 + (c.toNat - 48)) 0)

/-- Split a character list at every occurrence of the separator
(Python `str.split(sep)` for a one-character separator). -/
def splitOnChar (sep : Char) : List Char → List (List Char)
  | [] => [[]]
  | c :: cs =>
    if c = sep then [] :: splitOnChar sep cs
    else
      match splitOnChar sep cs with
      | [] => [[c]]
      | w :: ws => (c :: w) :: ws

/-- `datetime.strptime(s, "%m/%d/%Y")`: month/day/year separated by `/`,
raising (here: `none`) on any malformed or out-of-range component. -/
def parseDateMDY (s : String) : Option SimpleDate :=
  match splitOnChar '/' s.data with
  | [mPart, dPart, yPart] =>
    match parseNumericField 2 mPart, parseNumericField 2 dPart, parseNumericField 4 yPart with
    | some m, some d, some y =>
      if 1 ≤ m && m ≤ 12 && 1 ≤ d && d ≤ daysInMonth m y then
        some ⟨m, d, y⟩
      else none
    | _, _, _ => none
  | _ => none

/-- `datetime.strptime(s, "%H:%M:%S")` component of the timestamp format. -/
def parseTimeHMS (l : List Char) : Option (Nat × Nat × Nat) :=
  match splitOnChar ':' l with
  | [hPart, mPart, sPart] =>
    match parseNumericField 2 hPart, parseNumericField 2 mPart, parseNumericField 2 sPart with
    | some h, some m, some s =>
      if h ≤ 23 && m ≤ 59 && s ≤ 61 then some (h, m, s) else none
    | _, _, _ => none
  | _ => none

/-- `datetime.strptime(s, "%m/%d/%Y %H:%M:%S")`. -/
def parseDateTimeRow (s : String) : Option SimpleDateTime :=
  match splitOnChar ' ' s.data with
  | [datePart, timePart] =>
    match parseDateMDY (String.mk datePart), parseTimeHMS timePart with
    | some d, some (h, m, sec) => some ⟨d, h, m, sec⟩
    | _, _ => none
  | _ => none

/-! ## Children (`Child`) -/

/-- A constructed `Child` object: the `Person` base fields plus date of
birth and grade level.  `grade_level` is an `Option` because
`Child.parse_grade_level` silently yields `None` on unmapped labels. -/
structure ChildRecord where
  last_name : String
  first_name : String
  fullname : String
  dob : SimpleDate
  grade_level : Option Nat
  locale : FormLocale
deriving DecidableEq, Repr

/-- `Child.__init__`: format the names, parse the date of birth
(raising on failure), look up the grade level. -/
def mkChild (lastName firstName dobStr gradeName : String) (locale : FormLocale) :
    Except String ChildRecord :=
  match parseDateMDY dobStr with
  | none => .error "time data does not match format %m/%d/%Y"
  | some dob =>
    let last := format_last_name lastName locale
    let first := format_first_name firstName locale
    .ok { last_name := last
          first_name := first
          fullname := format_fullname last first locale
          dob := dob
          grade_level := parse_grade_level gradeName
          locale := locale }

/-! ## Parents (`Parent`) -/

/-- A constructed `Parent` object: the `Person` base fields plus the
contact fields.  `is_secondary` is not stored by the source and is not
stored here. -/
structure ParentRecord where
  last_name : String
  first_name : String
  fullname : String
  email_address : String
  phone_number : String
  home_address : String
  locale : FormLocale
deriving DecidableEq, Repr

/-- Models the external validator `string_util.is_email_address` of the
perseus library (not part of this repository): a single `@` separating a
non-empty local part from a non-empty domain that contains a dot, with
no whitespace. -/
def isEmailAddress (s : String) : Bool :=
  match splitOnChar '@' s.data with
  | [localPart, domainPart] =>
    !localPart.isEmpty && !domainPart.isEmpty &&
    containsSubstring [Char.ofNat 46] domainPart &&
    !(s.data.any isSpaceChar)
  | _ => false

/-- `Parent.__format_email_address`: strip, lower-case, validate. -/
def format_email_address (emailAddress : String) : Except String String :=
  let normalized := String.mk ((stripChars emailAddress.data).map toLowerChar)
  if isEmailAddress normalized then .ok normalized
  else .error "invalid email address"

/-- Python `str.isdigit` (ASCII model): non-empty and all digits. -/
def strIsDigit (s : String) : Bool :=
  !s.data.isEmpty && s.data.all isDigitChar

/-- Python `str.zfill`: left-pad with zeros up to the requested width. -/
def zfill (width : Nat) (s : String) : String :=
  String.mk (List.replicate (width - s.length) '0' ++ s.data)

/-- `Parent.__format_phone_number`: digits only, at least 9 of them,
rendered as `+84.` followed by the number left-padded to 10 digits. -/
def format_phone_number (phoneNumber : String) : Except String String :=
  if !strIsDigit phoneNumber then .error "invalid phone number"
  else if phoneNumber.length < 9 then .error "the phone number is missing digits"
  else .ok ("+84." ++ zfill 10 phoneNumber)

/-- `Parent.__cleanse_postal_address`: collapse whitespace. -/
def cleanse_postal_address (homeAddress : String) : String :=
  String.mk (joinSpace (splitWords homeAddress.data))

/-- `Parent.__init__`.  The language-detection heuristic
(`detect_locale`, backed by the external `langdetect` library) is passed
in as a function argument.  Note the source line

`ValueError('the home address of the primary parent must be passed')`

constructs the exception for a primary parent with a falsy home address
but never raises it, so this constructor does not fail on an empty home
address; the Python expression `home_address and cleanse(home_address)`
then keeps the empty string unchanged. -/
def mkParent (detectLocale : String → FormLocale)
    (lastName firstName emailAddress phoneNumber homeAddress : String)
    (locale : FormLocale) (isSecondaryParent : Bool) :
    Except String ParentRecord :=
  let locale :=
    if isSecondaryParent && (detectLocale (lastName ++ " " ++ firstName) = FormLocale.vie) then
      FormLocale.vie
    else locale
  match format_email_address emailAddress with
  | .error e => .error e
  | .ok email =>
    match format_phone_number phoneNumber with
    | .error e => .error e
    | .ok phone =>
      let last := format_last_name lastName locale
      let first := format_first_name firstName locale
      .ok { last_name := last
            first_name := first
            fullname := format_fullname last first locale
            email_address := email
            phone_number := phone
            home_address := if homeAddress.data.isEmpty then homeAddress
                            else cleanse_postal_address homeAddress
            locale := locale }

/-! ## MD5 (`hashlib.md5`)

A faithful executable MD5 over byte lists, used by
`Registration.__generate_registration_id`.  All 32-bit words are `Nat`
values kept below `2 ^ 32` by explicit reduction. -/

/-- Per-round left-rotation amounts of MD5. -/
def MD5_SHIFTS : List Nat :=
  [7, 12, 17, 22, 7, 12, 17, 22, 7, 12, 17, 22, 7, 12, 17, 22,
   5, 9, 14, 20, 5, 9, 14, 20, 5, 9, 14, 20, 5, 9, 14, 20,
   4, 11, 16, 23, 4, 11, 16, 23, 4, 11, 16, 23, 4, 11, 16, 23,
   6, 10, 15, 21, 6, 10, 15, 21, 6, 10, 15, 21, 6, 10, 15, 21]

/-- Per-round additive constants of MD5
(`K[i] = floor(2^32 * abs(sin(i + 1)))`). -/
def MD5_CONSTANTS : List Nat :=
  [0xd76aa478, 0xe8c7b756, 0x242070db, 0xc1bdceee,
   0xf57c0faf, 0x4787c62a, 0xa8304613, 0xfd469501,
   0x698098d8, 0x8b44f7af, 0xffff5bb1, 0x895cd7be,
   0x6b901122, 0xfd987193, 0xa679438e, 0x49b40821,
   0xf61e2562, 0xc040b340, 0x265e5a51, 0xe9b6c7aa,
   0xd62f105d, 0x02441453, 0xd8a1e681, 0xe7d3fbc8,
   0x21e1cde6, 0xc33707d6, 0xf4d50d87, 0x455a14ed,
   0xa9e3e905, 0xfcefa3f8, 0x676f02d9, 0x8d2a4c8a,
   0xfffa3942, 0x8771f681, 0x6d9d6122, 0xfde5380c,
   0xa4beea44, 0x4bdecfa9, 0xf6bb4b60, 0xbebfbc70,
   0x289b7ec6, 0xeaa127fa, 0xd4ef3085, 0x04881d05,
   0xd9d4d039, 0xe6db99e5, 0x1fa27cf8, 0xc4ac5665,
   0xf4292244, 0x432aff97, 0xab9423a7, 0xfc93a039,
   0x655b59c3, 0x8f0ccc92, 0xffeff47d, 0x85845dd1,
   0x6fa87e4f, 0xfe2ce6e0, 0xa3014314, 0x4e0811a1,
   0xf7537e82, 0xbd3af235, 0x2ad7d2bb, 0xeb86d391]

/-- 32-bit left rotation on a word already reduced below `2 ^ 32`. -/
def rotl32 (x s : Nat) : Nat :=
  ((x <<< s) ||| (x >>> (32 - s))) % 4294967296

/-- 32-bit bitwise complement. -/
def not32 (x : Nat) : Nat :=
  x ^^^ 4294967295

/-- The running state of the MD5 compression function. -/
structure MD5State where
  a : Nat
  b : Nat
  c : Nat
  d : Nat
deriving DecidableEq, Repr

/-- One of the 64 MD5 rounds applied to a 16-word message block `M`. -/
def md5Round (M : List Nat) (st : MD5State) (i : Nat) : MD5State :=
  let fg : Nat × Nat :=
    if i < 16 then (((st.b &&& st.c) ||| (not32 st.b &&& st.d)), i)
    else if i < 32 then (((st.d &&& st.b) ||| (not32 st.d &&& st.c)), (5 * i + 1) % 16)
    else if i < 48 then ((st.b ^^^ st.c ^^^ st.d), (3 * i + 5) % 16)
    else ((st.c ^^^ (st.b ||| not32 st.d)), (7 * i) % 16)
  let f := (fg.1 + st.a + MD5_CONSTANTS.getD i 0 + M.getD fg.2 0) % 4294967296
  { a := st.d
    b := (st.b + rotl32 f (MD5_SHIFTS.getD i 0)) % 4294967296
    c := st.b
    d := st.c }

/-- Process one 64-byte chunk: load the 16 little-endian words, run the
64 rounds, add the result back into the state. -/
def md5Chunk (st : MD5State) (chunk : List Nat) : MD5State :=
  let M := (List.range 16).map (fun j =>
    chunk.getD (4 * j) 0 + 256 * chunk.getD (4 * j + 1) 0 +
    65536 * chunk.getD (4 * j + 2) 0 + 16777216 * chunk.getD (4 * j + 3) 0)
  let final := (List.range 64).foldl (md5Round M) st
  { a := (st.a + final.a) % 4294967296
    b := (st.b + final.b) % 4294967296
    c := (st.c + final.c) % 4294967296
    d := (st.d + final.d) % 4294967296 }

/-- MD5 padding: a `0x80` byte, zeros up to 56 mod 64, then the bit
length as a 64-bit little-endian integer. -/
def md5Pad (msg : List Nat) : List Nat :=
  msg ++ [128] ++ List.replicate ((119 - msg.length % 64) % 64) 0 ++
  (List.range 8).map (fun i => ((msg.length * 8) >>> (8 * i)) % 256)

/-- Fold the compression function over the 64-byte chunks.  The fuel is
an upper bound on the number of chunks; it is instantiated with the
padded length, which always suffices. -/
def md5Chunks : Nat → MD5State → List Nat → MD5State
  | 0, st, _ => st
  | _ + 1, st, [] => st
  | fuel + 1, st, c :: cs =>
    md5Chunks fuel (md5Chunk st ((c :: cs).take 64)) ((c :: cs).drop 64)

/-- The initial MD5 state. -/
def md5Init : MD5State :=
  ⟨0x67452301, 0xefcdab89, 0x98badcfe, 0x10325476⟩

/-- The 16 digest bytes of the MD5 of a byte list. -/
def md5DigestBytes (msg : List Nat) : List Nat :=
  let padded := md5Pad msg
  let st := md5Chunks padded.length md5Init padded
  (List.range 4).map (fun i => (st.a >>> (8 * i)) % 256) ++
  (List.range 4).map (fun i => (st.b >>> (8 * i)) % 256) ++
  (List.range 4).map (fun i => (st.c >>> (8 * i)) % 256) ++
  (List.range 4).map (fun i => (st.d >>> (8 * i)) % 256)

/-- UTF-8 encoding of a string as a byte list (`str.encode()`). -/
def utf8Bytes (s : String) : List Nat :=
  s.data.flatMap (fun c =>
    let n := c.toNat
    if n < 128 then [n]
    else if n < 2048 then [192 + n / 64, 128 + n % 64]
    else if n < 65536 then [224 + n / 4096, 128 + n / 64 % 64, 128 + n % 64]
    else [240 + n / 262144, 128 + n / 4096 % 64, 128 + n / 64 % 64, 128 + n % 64])

/-- `int(hashlib.md5(s.encode()).hexdigest(), 16)`: the digest bytes
read as one big-endian integer. -/
def md5Hex (s : String) : Nat :=
  (md5DigestBytes (utf8Bytes s)).foldl (fun acc byte => acc * 256 + byte) 0

/-! ## Registration identifiers
(`Registration.__generate_registration_id`) -/

/-- `REGISTRATION_ID_DEFAULT_DIGIT_NUMBER`. -/
def REGISTRATION_ID_DEFAULT_DIGIT_NUMBER : Nat := 9

/-- Lexicographic comparison of character lists by code point — the
order Python's `sorted` uses on strings. -/
def charListLe : List Char → List Char → Bool
  | [], _ => true
  | _ :: _, [] => false
  | c :: cs, d :: ds =>
    if c.toNat < d.toNat then true
    else if d.toNat < c.toNat then false
    else charListLe cs ds

/-- Code-point lexicographic order on strings. -/
def stringLe (a b : String) : Bool :=
  charListLe a.data b.data

/-- Python `sorted` on strings: the sorted permutation under the
code-point lexicographic order. -/
def sortedStrings (l : List String) : List String :=
  List.insertionSort (fun a b => stringLe a b = true) l

/-- `Registration.__generate_registration_id`: join the sorted parent
email addresses with `", "`, MD5-hash the result, read the digest as a
big integer and reduce it modulo `10 ^ 9`. -/
def generate_registration_id (parents : List ParentRecord) : Nat :=
  md5Hex (String.intercalate ", " (sortedStrings (parents.map (fun p => p.email_address)))) %
    (10 ^ REGISTRATION_ID_DEFAULT_DIGIT_NUMBER)

/-! ## Registrations (`Registration`) -/

/-- A constructed `Registration` object. -/
structure RegistrationRecord where
  registration_id : Nat
  registration_time : SimpleDateTime
  children : List ChildRecord
  parents : List ParentRecord
  is_ape_member : Bool
  locale : FormLocale
deriving DecidableEq, Repr

/-- `Registration.__init__`: the identifier is derived from the parents,
everything else is stored as passed. -/
def mkRegistration (registrationTime : SimpleDateTime) (children : List ChildRecord)
    (parents : List ParentRecord) (isApeMember : Bool) (locale : FormLocale) :
    RegistrationRecord :=
  { registration_id := generate_registration_id parents
    registration_time := registrationTime
    children := children
    parents := parents
    is_ape_member := isApeMember
    locale := locale }

/-! ## The positional row schema (`Registration.RegistrationFields`)

Fields are identified by their 1-based position in the row, exactly as
the `RegistrationFields` enumeration numbers them. -/

/-- Number of fields of the `RegistrationFields` enumeration. -/
def REGISTRATION_FIELD_COUNT : Nat := 32

/-- `Registration.CHILDREN_FIELDS`: the four groups
(last name, first name, date of birth, grade name), by 1-based field
position. -/
def CHILDREN_FIELDS : List (List Nat) :=
  [[2, 3, 4, 5], [7, 8, 9, 10], [12, 13, 14, 15], [17, 18, 19, 20]]

/-- `Registration.PARENTS_FIELDS`: the two groups (last name, first
name, email address, phone number, home address), by 1-based field
position. -/
def PARENTS_FIELDS : List (List Nat) :=
  [[21, 22, 23, 24, 25], [27, 28, 29, 30, 31]]

/-- 1-based position of `REGISTRATION_TIME`. -/
def REGISTRATION_TIME_FIELD : Nat := 1

/-- 1-based position of `REGISTRATION_TYPE`. -/
def REGISTRATION_TYPE_FIELD : Nat := 32

/-- Read the value of a 1-based field from a row. -/
def fieldValue (row : List String) (field : Nat) : String :=
  row.getD (field - 1) ""

/-! ## Fee tier (`Registration.__parse_registration_type`) -/

/-- `PAYMENT_AMOUNT_UPMD`: the member fee literal. -/
def PAYMENT_AMOUNT_UPMD : String := "100,000"

/-- `PAYMENT_AMOUNT_NON_UPMD`: the non-member fee literal. -/
def PAYMENT_AMOUNT_NON_UPMD : String := "200,000"

/-- Python `s.split(',')[0]`. -/
def commaGroupHead (s : String) : String :=
  String.mk (s.data.takeWhile (fun c => c.toNat ≠ 44))

/-- `Registration.SUBSCRIPTION_AGREEMENTS`: the thousands group of each
fee literal, mapped to the membership flag, in source (dict insertion)
order. -/
def SUBSCRIPTION_AGREEMENTS : List (String × Bool) :=
  [(commaGroupHead PAYMENT_AMOUNT_UPMD, true),
   (commaGroupHead PAYMENT_AMOUNT_NON_UPMD, false)]

/-- The loop body of `Registration.__parse_registration_type` applied to
the stripped field value: the first keyword of
`SUBSCRIPTION_AGREEMENTS` contained in the value wins, and the `else`
branch of the loop yields `False` when no keyword matches. -/
def parse_registration_type_value (strippedValue : String) : Bool :=
  match SUBSCRIPTION_AGREEMENTS.find?
      (fun p => containsSubstring p.1.data strippedValue.data) with
  | some p => p.2
  | none => false

/-- `Registration.__parse_registration_type` on a row. -/
def parse_registration_type (row : List String) : Bool :=
  parse_registration_type_value (stripString (fieldValue row REGISTRATION_TYPE_FIELD))

/-! ## Row-to-record mapping (`Registration.__parse_child`,
`Registration.__parse_parent`, `Registration.from_row`) -/

/-- `Registration.__parse_child`: a group whose first field is blank
after trimming yields no child at all; otherwise the `Child` constructor
runs (and any of its validation errors propagates). -/
def parse_child (row : List String) (fields : List Nat) (locale : FormLocale) :
    Except String (Option ChildRecord) :=
  if (stripChars (fieldValue row (fields.getD 0 1)).data).isEmpty then
    .ok none
  else
    match mkChild (fieldValue row (fields.getD 0 1)) (fieldValue row (fields.getD 1 1))
        (fieldValue row (fields.getD 2 1)) (fieldValue row (fields.getD 3 1)) locale with
    | .error e => .error e
    | .ok child => .ok (some child)

/-- `Registration.__parse_parent`: a blank first field is a no-op for
the secondary parent and a hard error for the primary parent. -/
def parse_parent (detectLocale : String → FormLocale) (row : List String)
    (fields : List Nat) (locale : FormLocale) (isSecondaryParent : Bool) :
    Except String (Option ParentRecord) :=
  if (stripChars (fieldValue row (fields.getD 0 1)).data).isEmpty then
    if isSecondaryParent then .ok none
    else .error "The primary parent has not been defined"
  else
    match mkParent detectLocale (fieldValue row (fields.getD 0 1))
        (fieldValue row (fields.getD 1 1)) (fieldValue row (fields.getD 2 1))
        (fieldValue row (fields.getD 3 1)) (fieldValue row (fields.getD 4 1))
        locale isSecondaryParent with
    | .error e => .error e
    | .ok parent => .ok (some parent)

/-- The child-collection loop of `Registration.from_row`: parse each
group in order, keep the non-`None` results, propagate errors. -/
def parseChildGroups (row : List String) (locale : FormLocale) :
    List (List Nat) → Except String (List ChildRecord)
  | [] => .ok []
  | fields :: rest =>
    match parse_child row fields locale with
    | .error e => .error e
    | .ok child =>
      match parseChildGroups row locale rest with
      | .error e => .error e
      | .ok children =>
        .ok (match child with
             | some c => c :: children
             | none => children)

/-- The parent-collection loop of `Registration.from_row`: the group at
index 0 is the primary parent, every later group a secondary one. -/
def parseParentGroups (detectLocale : String → FormLocale) (row : List String)
    (locale : FormLocale) (isSecondary : Bool) :
    List (List Nat) → Except String (List ParentRecord)
  | [] => .ok []
  | fields :: rest =>
    match parse_parent detectLocale row fields locale isSecondary with
    | .error e => .error e
    | .ok parent =>
      match parseParentGroups detectLocale row locale true rest with
      | .error e => .error e
      | .ok parents =>
        .ok (match parent with
             | some p => p :: parents
             | none => parents)

/-- The padding step of `Registration.from_row`: Google Sheets
truncates trailing empty cells, so the row is extended to the schema
width with empty strings. -/
def padRow (row : List String) : List String :=
  row ++ List.replicate (REGISTRATION_FIELD_COUNT - row.length) ""

/-- `Registration.from_row`: `None` for an empty row; otherwise pad the
row to the schema width with empty strings, parse the submission
timestamp, collect children and parents, read the fee flag, and build
the `Registration`. -/
def from_row (detectLocale : String → FormLocale) (row : List String)
    (locale : FormLocale) : Except String (Option RegistrationRecord) :=
  if row.isEmpty then .ok none
  else
    match parseDateTimeRow (fieldValue (padRow row) REGISTRATION_TIME_FIELD) with
    | none => .error "time data does not match format %m/%d/%Y %H:%M:%S"
    | some registrationTime =>
      match parseChildGroups (padRow row) locale CHILDREN_FIELDS with
      | .error e => .error e
      | .ok children =>
        match parseParentGroups detectLocale (padRow row) locale false PARENTS_FIELDS with
        | .error e => .error e
        | .ok parents =>
          .ok (some (mkRegistration registrationTime children parents
            (parse_registration_type (padRow row)) locale))

/-! ## Placeholder expansion (`expand_placeholders_value`)

The regex `REGEX_PLACEHOLDER_NAME` is `::name::` with
`name = [A-Za-z][A-Za-z0-9_.]*` (the inline `(?i)` flag makes the
letter classes case-insensitive).  Because `:` is not a name character,
the regex engine's greedy scan is exactly maximal-munch, and `finditer`
yields non-overlapping matches left to right, resuming after each
match. -/

/-- ASCII letter (`[a-z]` under `re.IGNORECASE`). -/
def isAsciiLetter (c : Char) : Bool :=
  (65 ≤ c.toNat && c.toNat ≤ 90) || (97 ≤ c.toNat && c.toNat ≤ 122)

/-- Characters allowed after the leading letter of a placeholder name. -/
def isPlaceholderNameChar (c : Char) : Bool :=
  isAsciiLetter c || isDigitChar c || c.toNat = 95 || c.toNat = 46

/-- Try to match `::name::` at the head of the list; on success return
the name together with the remaining input after the closing colons. -/
def placeholderTokenAt : List Char → Option (List Char × List Char)
  | ':' :: ':' :: c :: cs =>
    if isAsciiLetter c then
      match (c :: cs).dropWhile isPlaceholderNameChar with
      | ':' :: ':' :: rest => some ((c :: cs).takeWhile isPlaceholderNameChar, rest)
      | _ => none
    else none
  | _ => none

/-- The `finditer` scan: at each position try the token pattern; on a
match, resume after it, otherwise advance one character.  The fuel is
an upper bound on the number of positions (the input length). -/
def scanPlaceholders : Nat → List Char → List (List Char)
  | 0, _ => []
  | _ + 1, [] => []
  | fuel + 1, c :: cs =>
    match placeholderTokenAt (c :: cs) with
    | some (name, rest) => name :: scanPlaceholders fuel rest
    | none => scanPlaceholders fuel cs

/-- Keep the first occurrence of each element (the deterministic
ordering chosen for Python's `set` of matches; the choice only matters
when substituted values themselves contain tokens). -/
def dedupFirst (l : List (List Char)) : List (List Char) :=
  l.foldl (fun acc t => if t ∈ acc then acc else acc ++ [t]) []

/-- The distinct placeholder names referenced by a content string, in
first-occurrence order. -/
def placeholderNames (content : String) : List String :=
  (dedupFirst (scanPlaceholders content.data.length content.data)).map
    (fun cs => String.mk cs)

/-- Python `content.replace(old, new)`: replace every non-overlapping
occurrence, scanning left to right.  The fuel is the content length.
(The `old = ""` case never arises: tokens are at least five characters.) -/
def replaceAll : Nat → List Char → List Char → List Char → List Char
  | 0, _, _, s => s
  | _ + 1, _, _, [] => []
  | fuel + 1, old, new, c :: cs =>
    if !old.isEmpty && old.isPrefixOf (c :: cs) then
      new ++ replaceAll fuel old new (List.drop old.length (c :: cs))
    else
      c :: replaceAll fuel old new cs

/-- The two `assert` failures of `expand_placeholders_value`. -/
inductive ExpandError where
  | undefinedPlaceholders (names : List String)
  | unusedPlaceholders (names : List String)
deriving DecidableEq, Repr

/-- Association-list lookup for the placeholder dictionary. -/
def lookupPlaceholder (placeholders : List (String × String)) (name : String) :
    Option String :=
  (placeholders.find? (fun p => p.1 = name)).map Prod.snd

/-- `expand_placeholders_value`:  collect the distinct referenced
placeholder names; fail if any referenced name is undefined; fail if a
defined name is unreferenced unless `ignore_unused_placeholders`; then
replace every literal `::name::` by its value. -/
def expand_placeholders_value (content : String) (placeholders : List (String × String))
    (ignoreUnusedPlaceholders : Bool) : Except ExpandError String :=
  let usedNames := placeholderNames content
  let undefinedNames := usedNames.filter
    (fun n => (lookupPlaceholder placeholders n).isNone)
  if !undefinedNames.isEmpty then
    .error (.undefinedPlaceholders undefinedNames)
  else
    let unusedNames := (placeholders.map Prod.fst).filter
      (fun n => !usedNames.contains n)
    if !unusedNames.isEmpty && !ignoreUnusedPlaceholders then
      .error (.unusedPlaceholders unusedNames)
    else
      .ok (usedNames.foldl
        (fun acc n =>
          let token := "::" ++ n ++ "::"
          String.mk (replaceAll acc.data.length token.data
            ((lookupPlaceholder placeholders n).getD "").data acc.data))
        content)

/-! ## Human-readable identifiers (`prettify_registration_id`) -/

/-- The `while` loop of `prettify_registration_id`: the decimal digit
groups of the identifier, least significant first, each rendered with
`str(...).zfill(3)`.  The fuel is the identifier itself, which bounds
the number of divisions by 1000. -/
def prettifySegments : Nat → Nat → List String
  | 0, _ => []
  | fuel + 1, n =>
    if n = 0 then []
    else zfill 3 (Nat.repr (n % 1000)) :: prettifySegments fuel (n / 1000)

/-- Python `'-'.join(...)`. -/
def joinDash : List String → String
  | [] => ""
  | [s] => s
  | s :: rest => s ++ "-" ++ joinDash rest

/-- `prettify_registration_id`: the digit groups, reversed to most
significant first and joined with dashes. -/
def prettify_registration_id (id : Nat) : String :=
  joinDash (prettifySegments id id).reverse

/-! ## Reconciliation (`run`, `process_registration`)

The `DIFF` step is the list comprehension at `etl.py:920-924`; the
`APPEND` step is the `for` loop at `etl.py:935-946`, whose observable
behaviour is modelled as a trace of events: `process_registration`
first sends the confirmation e-mail, then writes the ledger rows
(`build_registration_rows` emits one row per child) starting at
`A(row_count + 1)`; the loop then advances `row_count` by the number of
children. -/

/-- The `DIFF` step: keep the registrations whose identifier is not
among the already-processed ones, in batch order. -/
def new_registrations (processedIds : List Nat) (registrations : List RegistrationRecord) :
    List RegistrationRecord :=
  registrations.filter (fun r => !processedIds.contains r.registration_id)

/-- Observable actions of the append phase. -/
inductive LedgerEvent where
  | notifyFamily (registrationId : Nat)
  | appendRows (registrationId : Nat) (startRow : Nat) (rowCount : Nat)
deriving DecidableEq, Repr

/-- `process_registration`: the confirmation e-mail is sent first, then
the ledger rows are inserted starting at row `rowCount + 1` (one row
per registered child). -/
def process_registration_events (r : RegistrationRecord) (rowCount : Nat) :
    List LedgerEvent :=
  [LedgerEvent.notifyFamily r.registration_id,
   LedgerEvent.appendRows r.registration_id (rowCount + 1) r.children.length]

/-- The `APPEND` loop of `run`: process each new registration in order,
advancing the row offset by the number of its children afterwards. -/
def run_append_phase : List RegistrationRecord → Nat → List LedgerEvent
  | [], _ => []
  | r :: rest, rowCount =>
    process_registration_events r rowCount ++
      run_append_phase rest (rowCount + r.children.length)

/-- The registration identifier an event belongs to. -/
def eventRegistrationId : LedgerEvent → Nat
  | .notifyFamily rid => rid
  | .appendRows rid _ _ => rid

/-- The sub-trace of events belonging to one registration. -/
def eventsFor (rid : Nat) (trace : List LedgerEvent) : List LedgerEvent :=
  trace.filter (fun e => eventRegistrationId e = rid)

/-- Total number of ledger rows of a batch prefix (one row per child). -/
def totalChildRows (registrations : List RegistrationRecord) : Nat :=
  (registrations.map (fun r => r.children.length)).sum

/-! ## Spec-side definition for the fee-tier claim

For the refinement claim about the fee tier, the decision rule the spec
describes is stated separately, to be compared with the source's
`parse_registration_type`. -/

/-- The leading digit group of a field value: the maximal digit run at
the start of the stripped value. -/
def leadingDigitGroup (v : String) : String :=
  String.mk ((stripChars v.data).takeWhile isDigitChar)

/-- Follows the spec's words (not the source): match only the leading
digit group of the free-text amount field against the fixed mapping,
defaulting to "not a member". -/
def specMembershipByLeadingDigitGroup (v : String) : Bool :=
  match SUBSCRIPTION_AGREEMENTS.find? (fun p => p.1 = leadingDigitGroup v) with
  | some p => p.2
  | none => false

/-! ## Concrete sample values used by witnesses and counterexamples -/

/-- A parent with a minimal valid field set (email `a@x.com`). -/
def sampleParentA : ParentRecord :=
  { last_name := "AN"
    first_name := "Ana"
    fullname := "Ana AN"
    email_address := "a@x.com"
    phone_number := "+84.0912345678"
    home_address := "1 Street"
    locale := FormLocale.eng }

/-- A parent with a minimal valid field set (email `b@y.com`). -/
def sampleParentB : ParentRecord :=
  { last_name := "BO"
    first_name := "Bob"
    fullname := "Bob BO"
    email_address := "b@y.com"
    phone_number := "+84.0912345679"
    home_address := "2 Street"
    locale := FormLocale.fra }

/-- A child record used to build sample registrations. -/
def sampleChild : ChildRecord :=
  { last_name := "AN"
    first_name := "Mia"
    fullname := "Mia AN"
    dob := ⟨9, 1, 2012⟩
    grade_level := some 6
    locale := FormLocale.eng }

/-- A one-child registration with identifier 7, for the append-phase
trace counterexample. -/
def traceRegistration7 : RegistrationRecord :=
  { registration_id := 7
    registration_time := ⟨⟨7, 1, 2020⟩, 10, 0, 0⟩
    children := [sampleChild]
    parents := [sampleParentA]
    is_ape_member := true
    locale := FormLocale.eng }

/-- A one-child registration with identifier 1, for the append-phase
witness batch. -/
def traceRegistration1 : RegistrationRecord :=
  { registration_id := 1
    registration_time := ⟨⟨7, 1, 2020⟩, 10, 0, 0⟩
    children := [sampleChild]
    parents := [sampleParentA]
    is_ape_member := false
    locale := FormLocale.eng }

/-- A two-child registration with identifier 2, for the append-phase
witness batch. -/
def traceRegistration2 : RegistrationRecord :=
  { registration_id := 2
    registration_time := ⟨⟨7, 2, 2020⟩, 11, 0, 0⟩
    children := [sampleChild, sampleChild]
    parents := [sampleParentB]
    is_ape_member := false
    locale := FormLocale.fra }

/-- The end-to-end sample row of the specification: one child (grade
`CE1`), one primary parent, fee literal `100,000` in the
`REGISTRATION_TYPE` column. -/
def sampleRow : List String :=
  ["07/01/2020 10:00:00", "DOE", "Jane", "09/01/2012", "CE1",
   "", "", "", "", "", "", "", "", "", "", "", "", "", "", "",
   "DOE", "John", "john@x.com", "912345678", "1 Rue A",
   "", "", "", "", "", "", "100,000"]

/-- The registration `from_row` builds from `sampleRow` under the
French locale (`registration_id` is the MD5-derived identifier of the
parent email set `{john@x.com}`). -/
def sampleRegistration : RegistrationRecord :=
  { registration_id := 594427901
    registration_time := ⟨⟨7, 1, 2020⟩, 10, 0, 0⟩
    children :=
      [{ last_name := "DOE"
         first_name := "Jane"
         fullname := "Jane DOE"
         dob := ⟨9, 1, 2012⟩
         grade_level := some 6
         locale := FormLocale.fra }]
    parents :=
      [{ last_name := "DOE"
         first_name := "John"
         fullname := "John DOE"
         email_address := "john@x.com"
         phone_number := "+84.0912345678"
         home_address := "1 Rue A"
         locale := FormLocale.fra }]
    is_ape_member := true
    locale := FormLocale.fra }

deriving instance DecidableEq for Except

/-! # Theorems -/

set_option maxRecDepth 100000 in
/-- Sanity check of the MD5 embedding against the RFC 1321 test vector
for `"abc"`. -/
theorem md5_abc_vector : md5Hex "abc" = 0x900150983cd24fb0d6963f7d28e17f72 := by
  decide


/-! ## Order lemmas for the email sort -/

/-- Code-point equality is character equality. -/
lemma char_toNat_injective (c d : Char) (h : c.toNat = d.toNat) : c = d := by
  have h1 : Char.ofNat c.toNat = Char.ofNat d.toNat := congrArg _ h
  rwa [Char.ofNat_toNat, Char.ofNat_toNat] at h1

/-- `charListLe` is total. -/
lemma charListLe_total : ∀ a b : List Char, charListLe a b = true ∨ charListLe b a = true := by
  intro a
  induction a with
  | nil => intro b; left; rfl
  | cons c cs ih =>
    intro b
    cases b with
    | nil => right; rfl
    | cons d ds =>
      rcases Nat.lt_trichotomy c.toNat d.toNat with h | h | h
      · left; simp [charListLe, h]
      · have hcd : c = d := char_toNat_injective _ _ h
        subst hcd
        rcases ih ds with h2 | h2
        · left; simp [charListLe, h2]
        · right; simp [charListLe, h2]
      · right; simp [charListLe, h, Nat.lt_asymm h]

/-- `charListLe` is antisymmetric. -/
lemma charListLe_antisymm : ∀ a b : List Char,
    charListLe a b = true → charListLe b a = true → a = b := by
  intro a
  induction a with
  | nil =>
    intro b _ h2
    cases b with
    | nil => rfl
    | cons d ds => simp [charListLe] at h2
  | cons c cs ih =>
    intro b h1 h2
    cases b with
    | nil => simp [charListLe] at h1
    | cons d ds =>
      rcases Nat.lt_trichotomy c.toNat d.toNat with h | h | h
      · simp [charListLe, h, Nat.lt_asymm h] at h2
      · have hcd : c = d := char_toNat_injective _ _ h
        subst hcd
        simp [charListLe] at h1 h2
        rw [ih ds h1 h2]
      · simp [charListLe, h, Nat.lt_asymm h] at h1

/-- `charListLe` is transitive. -/
lemma charListLe_trans : ∀ a b c : List Char,
    charListLe a b = true → charListLe b c = true → charListLe a c = true := by
  intro a
  induction a with
  | nil => intro b c _ _; rfl
  | cons x xs ih =>
    intro b c h1 h2
    cases b with
    | nil => simp [charListLe] at h1
    | cons y ys =>
      cases c with
      | nil => simp [charListLe] at h2
      | cons z zs =>
        rcases Nat.lt_trichotomy x.toNat y.toNat with hxy | hxy | hxy <;>
          rcases Nat.lt_trichotomy y.toNat z.toNat with hyz | hyz | hyz
        · simp [charListLe, Nat.lt_trans hxy hyz]
        · simp [charListLe, hyz ▸ hxy]
        · simp [charListLe, hxy, Nat.lt_asymm hxy] at h1 ⊢
          simp [charListLe, hyz, Nat.lt_asymm hyz] at h2
        · simp [charListLe, hxy ▸ hyz]
        · have hx : x = y := char_toNat_injective _ _ hxy
          have hy : y = z := char_toNat_injective _ _ hyz
          subst hx; subst hy
          simp [charListLe] at h1 h2 ⊢
          exact ih ys zs h1 h2
        · simp [charListLe, hyz, Nat.lt_asymm hyz] at h2
        · simp [charListLe, hxy, Nat.lt_asymm hxy] at h1
        · simp [charListLe, hxy, Nat.lt_asymm hxy] at h1
        · simp [charListLe, hxy, Nat.lt_asymm hxy] at h1

/-- Sorting is invariant under permutation of the input. -/
lemma sortedStrings_perm_eq (l1 l2 : List String) (h : l1.Perm l2) :
    sortedStrings l1 = sortedStrings l2 := by
  haveI : IsTotal String (fun a b => stringLe a b = true) :=
    ⟨fun a b => charListLe_total a.data b.data⟩
  haveI : IsTrans String (fun a b => stringLe a b = true) :=
    ⟨fun a b c h1 h2 => charListLe_trans a.data b.data c.data h1 h2⟩
  haveI : IsAntisymm String (fun a b => stringLe a b = true) :=
    ⟨fun a b h1 h2 => by
      cases a with
      | mk da =>
        cases b with
        | mk db =>
          rw [charListLe_antisymm da db h1 h2]⟩
  have hs1 : List.Sorted (fun a b : String => stringLe a b = true) (sortedStrings l1) :=
    List.sorted_insertionSort _ l1
  have hs2 : List.Sorted (fun a b : String => stringLe a b = true) (sortedStrings l2) :=
    List.sorted_insertionSort _ l2
  exact List.eq_of_perm_of_sorted
    (((List.perm_insertionSort _ l1).trans h).trans (List.perm_insertionSort _ l2).symm) hs1 hs2

/-! ## Claim C1 — registration identifier -/

set_option maxRecDepth 1000000 in
/-- C1 (counterexample).  Two parent lists with the same *set* of email
addresses but different multiplicities — `[a@x.com]` versus
`[a@x.com, a@x.com]` — produce different identifiers, because the
duplicated address is joined into the hashed string twice.  The claim's
"any two parent lists with the same set of email addresses yield the
same identifier" is therefore false as stated. -/
theorem registration_id_same_email_set_counterexample :
    ([sampleParentA].map (fun p => p.email_address)) ⊆
      ([sampleParentA, sampleParentA].map (fun p => p.email_address)) ∧
    ([sampleParentA, sampleParentA].map (fun p => p.email_address)) ⊆
      ([sampleParentA].map (fun p => p.email_address)) ∧
    generate_registration_id [sampleParentA] ≠
      generate_registration_id [sampleParentA, sampleParentA] := by
  refine ⟨by decide, by decide, by decide⟩

/-- C1 (amended).  For every non-empty list of parents the generated
identifier — the MD5 of the sorted, comma-joined email addresses
reduced modulo `10 ^ 9` — lies in `[0, 10 ^ 9)`, and any two parent
lists that are permutations of one another (same multiset of email
addresses, any order) yield the same identifier. -/
theorem registration_id_perm_invariant_and_range :
    ∀ parents1 parents2 : List ParentRecord,
      parents1 ≠ [] →
      parents1.Perm parents2 →
      generate_registration_id parents1 < 10 ^ 9 ∧
      generate_registration_id parents1 = generate_registration_id parents2 := by
  intro p1 p2 _ hperm
  constructor
  · exact Nat.mod_lt _ (by norm_num)
  · unfold generate_registration_id
    rw [sortedStrings_perm_eq _ _ (hperm.map _)]

set_option maxRecDepth 1000000 in
/-- C1 (witness).  The amended theorem applied to the two orderings of
a concrete two-parent family. -/
theorem registration_id_perm_invariant_and_range_witness :
    [sampleParentA, sampleParentB] ≠ ([] : List ParentRecord) ∧
    ([sampleParentA, sampleParentB] : List ParentRecord).Perm [sampleParentB, sampleParentA] ∧
    generate_registration_id [sampleParentA, sampleParentB] < 10 ^ 9 ∧
    generate_registration_id [sampleParentA, sampleParentB] =
      generate_registration_id [sampleParentB, sampleParentA] :=
  ⟨by decide, by decide,
   (registration_id_perm_invariant_and_range [sampleParentA, sampleParentB]
     [sampleParentB, sampleParentA] (by decide) (by decide)).1,
   (registration_id_perm_invariant_and_range [sampleParentA, sampleParentB]
     [sampleParentB, sampleParentA] (by decide) (by decide)).2⟩

/-! ## Claim C5 — fee tier to membership boolean -/

/-- C5 (counterexample).  On the field value `"2100,000"` the source's
substring test finds `"100"` inside the text and reports "member",
while the spec's leading-digit-group rule extracts `"2100"`, matches
nothing, and reports "not a member": the code does not match only the
leading digit group. -/
theorem membership_leading_digit_group_counterexample :
    parse_registration_type_value "2100,000" = true ∧
    specMembershipByLeadingDigitGroup "2100,000" = false ∧
    parse_registration_type_value "2100,000" ≠
      specMembershipByLeadingDigitGroup "2100,000" := by
  refine ⟨by decide, by decide, by decide⟩

/-- C5 (amended).  The membership boolean is decided by substring
containment of the fee keywords in the stripped field value — `"100"`
(member) is tested before `"200"` (non-member) — and, since both the
`"200"` match and the no-match default yield `False`, the decision is
equivalently: member exactly when `"100"` occurs anywhere in the field.
Unmatched text yields `False` rather than an error. -/
theorem membership_substring_characterization :
    (∀ v : String,
      parse_registration_type_value v = containsSubstring ("100".data) v.data) ∧
    (∀ row : List String,
      parse_registration_type row =
        containsSubstring ("100".data)
          (stripChars (fieldValue row REGISTRATION_TYPE_FIELD).data)) := by
  have key : ∀ v : String,
      parse_registration_type_value v = containsSubstring ("100".data) v.data := by
    intro v
    have hc1 : commaGroupHead PAYMENT_AMOUNT_UPMD = "100" := by decide
    have hc2 : commaGroupHead PAYMENT_AMOUNT_NON_UPMD = "200" := by decide
    unfold parse_registration_type_value SUBSCRIPTION_AGREEMENTS
    rw [hc1, hc2]
    cases h1 : containsSubstring ("100".data) v.data <;>
      cases h2 : containsSubstring ("200".data) v.data <;>
      simp [List.find?, h1, h2]
  exact ⟨key, fun row => key _⟩

/-! ## Claim C6 — unmapped grade labels -/

/-- C6 (code bug).  `Child.parse_grade_level` silently returns `None`
on a label matching no entry of the grade table — no error is raised —
and the `Child` constructor then stores that `None` as the grade level:
on the unmapped label `"L3"` a child record is built with
`grade_level := none` instead of the lookup failure the specification
(and the function's own docstring, which promises an integer)
requires. -/
theorem grade_level_unmapped_silent_none :
    parse_grade_level "L3" = none ∧
    mkChild "DOE" "Jane" "09/01/2012" "L3" FormLocale.eng =
      .ok { last_name := "DOE", first_name := "Jane", fullname := "Jane DOE",
            dob := ⟨9, 1, 2012⟩, grade_level := none, locale := FormLocale.eng } := by
  refine ⟨by decide, by decide⟩

/-! ## Claim C8 — locale-dependent name casing -/

/-- C8 (counterexample).  A Latin-script name under the Korean-tagged
locale is *not* passed through unmodified: the case transforms are
applied for every locale. -/
theorem name_casing_korean_passthrough_counterexample :
    format_last_name "kim" FormLocale.kor = "KIM" ∧
    format_last_name "kim" FormLocale.kor ≠ "kim" ∧
    format_first_name "john" FormLocale.kor = "John" ∧
    format_first_name "john" FormLocale.kor ≠ "john" := by
  refine ⟨by decide, by decide, by decide, by decide⟩

/-! ## Claim C4 — idempotence of placeholder expansion -/

/-- C4 (counterexample).  With the non-empty map `a ↦ x`, the first
expansion of `"::a::"` succeeds and yields the token-free `"x"`, but
applying `expand` a second time with the same map (and the same default
`ignore_unused` setting) does not return the same result: it fails the
unused-placeholder check, because no name of the map is referenced in
the already-expanded content. -/
theorem expand_second_application_fails_counterexample :
    expand_placeholders_value "::a::" [("a", "x")] false = .ok "x" ∧
    placeholderNames "x" = [] ∧
    expand_placeholders_value "x" [("a", "x")] false =
      .error (ExpandError.unusedPlaceholders ["a"]) := by
  refine ⟨by decide, by decide, by decide⟩

/-- C4 (amended).  For every content `c` and placeholder map `v` such
that `expand(c, v)` succeeds and its result `r` contains no remaining
placeholder token, a second application with the same map returns the
same result *provided the unused-value check is disabled*
(`ignore_unused` set): `expand(r, v, ignore_unused=True) = r`.  (With
`ignore_unused` unset the second application instead fails the
unused-placeholder check whenever `v` is non-empty, as the
counterexample shows.) -/
theorem expand_idempotent_with_ignore_unused :
    ∀ (c : String) (v : List (String × String)) (b : Bool) (r : String),
      expand_placeholders_value c v b = .ok r →
      placeholderNames r = [] →
      expand_placeholders_value r v true = .ok r := by
  intro c v b r _ hr
  unfold expand_placeholders_value
  rw [hr]
  simp

/-- C4 (witness).  The amended theorem applied to the concrete content
`"::a::"` and map `a ↦ y`. -/
theorem expand_idempotent_with_ignore_unused_witness :
    expand_placeholders_value "::a::" [("a", "y")] false = .ok "y" ∧
    placeholderNames "y" = [] ∧
    expand_placeholders_value "y" [("a", "y")] true = .ok "y" :=
  ⟨by decide, by decide,
   expand_idempotent_with_ignore_unused "::a::" [("a", "y")] false "y"
     (by decide) (by decide)⟩

/-! ## Claim C7 — human-readable identifier rendering -/

/-- The digit-group loop yields nothing for the identifier 0. -/
lemma prettifySegments_zero_arg (fuel : Nat) : prettifySegments fuel 0 = [] := by
  cases fuel <;> simp [prettifySegments]

/-- The digit-group loop is independent of its fuel once the fuel
covers the identifier. -/
lemma prettifySegments_stable (n : Nat) :
    ∀ f g : Nat, n ≤ f → n ≤ g → prettifySegments f n = prettifySegments g n := by
  induction n using Nat.strong_induction_on with
  | _ n ih =>
    intro f g hf hg
    cases n with
    | zero => rw [prettifySegments_zero_arg, prettifySegments_zero_arg]
    | succ m =>
      cases f with
      | zero => omega
      | succ f1 =>
        cases g with
        | zero => omega
        | succ g1 =>
          simp only [prettifySegments, Nat.succ_ne_zero, if_false]
          have hdiv : (m + 1) / 1000 < m + 1 := Nat.div_lt_self (Nat.succ_pos m) (by norm_num)
          rw [ih ((m + 1) / 1000) hdiv f1 g1 (by omega) (by omega)]

/-- A positive identifier yields at least one digit group. -/
lemma prettifySegments_self_ne_nil (a : Nat) (h : 0 < a) :
    prettifySegments a a ≠ [] := by
  cases a with
  | zero => omega
  | succ m => simp [prettifySegments]

/-- Splitting the last element off a dash join. -/
lemma joinDash_append_singleton (xs : List String) (y : String) (h : xs ≠ []) :
    joinDash (xs ++ [y]) = joinDash xs ++ "-" ++ y := by
  induction xs with
  | nil => cases h rfl
  | cons a as ih =>
    cases as with
    | nil => simp [joinDash]
    | cons b bs =>
      have h2 := ih (by simp)
      show a ++ "-" ++ joinDash ((b :: bs) ++ [y]) = (a ++ "-" ++ joinDash (b :: bs)) ++ "-" ++ y
      rw [h2]
      simp [String.append_assoc]

/-- C7 (counterexample).  `prettify_registration_id 42 = "042"`, not
`"42"`: the rendering zero-pads the most significant digit group to
three digits, contradicting the claim's "inserting no leading zero
padding beyond the generator's own digits". -/
theorem prettify_no_padding_counterexample :
    prettify_registration_id 42 = "042" ∧
    prettify_registration_id 42 ≠ "42" := by
  refine ⟨by decide, by decide⟩

/-- C7 (amended).  The rendering groups the decimal digits of the
identifier in blocks of three separated by dashes, most significant
block first, with *every* block — including the most significant one —
zero-padded to exactly three digits: a positive identifier below 1000
renders as its three-digit zero-fill, and splitting off the last three
digits prepends the rendering of the remaining prefix; concretely,
`123456789` renders as `"123-456-789"` and `42` renders as `"042"`. -/
theorem prettify_zero_padded_groups :
    (∀ n : Nat, 0 < n → n < 1000 →
      prettify_registration_id n = zfill 3 (Nat.repr n)) ∧
    (∀ a b : Nat, 0 < a → b < 1000 →
      prettify_registration_id (a * 1000 + b) =
        prettify_registration_id a ++ "-" ++ zfill 3 (Nat.repr b)) ∧
    prettify_registration_id 123456789 = "123-456-789" ∧
    prettify_registration_id 42 = "042" := by
  refine ⟨?_, ?_, by decide, by decide⟩
  · intro n h0 h1000
    cases n with
    | zero => omega
    | succ m =>
      unfold prettify_registration_id
      simp only [prettifySegments, Nat.succ_ne_zero, if_false]
      rw [Nat.mod_eq_of_lt h1000, Nat.div_eq_of_lt h1000, prettifySegments_zero_arg]
      rfl
  · intro a b ha hb
    have hne : a * 1000 + b ≠ 0 := by positivity
    unfold prettify_registration_id
    cases hE : a * 1000 + b with
    | zero => omega
    | succ k =>
      simp only [prettifySegments, Nat.succ_ne_zero, if_false]
      rw [← hE]
      have hmod : (a * 1000 + b) % 1000 = b := by omega
      have hdivq : (a * 1000 + b) / 1000 = a := by omega
      rw [hmod, hdivq]
      have hstable : prettifySegments k a = prettifySegments a a := by
        apply prettifySegments_stable a k a ?_ (Nat.le_refl a)
        omega
      rw [hstable]
      rw [List.reverse_cons]
      rw [joinDash_append_singleton _ _ ?_]
      simp [List.reverse_eq_nil_iff]
      exact prettifySegments_self_ne_nil a ha

/-- C7 (witness).  The amended theorem's grouping equation applied to
the identifier `123456` (`a = 123`, `b = 456`). -/
theorem prettify_zero_padded_groups_witness :
    (0 < 123 ∧ 456 < 1000) ∧
    prettify_registration_id (123 * 1000 + 456) =
      prettify_registration_id 123 ++ "-" ++ zfill 3 (Nat.repr 456) :=
  ⟨⟨by decide, by decide⟩,
   prettify_zero_padded_groups.2.1 123 456 (by decide) (by decide)⟩

/-! ## Claim C2 — the DIFF step -/

/-- C2 (confirmed).  For every existing-identifier set `E` and parsed
batch `B`, the diff step keeps exactly the registrations of `B` whose
identifier is not in `E` (membership characterization), preserves `B`'s
original order (it is a sublist of `B`), and re-running the diff with
`E` extended by the identifiers of the registrations just kept yields
the empty list. -/
theorem diff_filter_spec :
    ∀ (processedIds : List Nat) (batch : List RegistrationRecord),
      (∀ r : RegistrationRecord,
        r ∈ new_registrations processedIds batch ↔
          r ∈ batch ∧ r.registration_id ∉ processedIds) ∧
      (new_registrations processedIds batch).Sublist batch ∧
      new_registrations
        (processedIds ++
          (new_registrations processedIds batch).map (fun r => r.registration_id))
        batch = [] := by
  intro E B
  refine ⟨?_, List.filter_sublist B, ?_⟩
  · intro r
    simp [new_registrations, List.mem_filter, List.elem_iff]
  · unfold new_registrations
    rw [List.filter_eq_nil_iff]
    intro r hr
    simp only [Bool.not_eq_true', Bool.not_eq_true]
    by_cases hmem : r.registration_id ∈ E
    · simp [List.elem_iff, hmem]
    · have hkept : r ∈ new_registrations E B := by
        simp [new_registrations, List.mem_filter, List.elem_iff, hr, hmem]
      have hid : r.registration_id ∈
          (new_registrations E B).map (fun r => r.registration_id) :=
        List.mem_map_of_mem _ hkept
      simp [List.elem_iff, hid]
      intro _
      exact ⟨r, hr, hmem, rfl⟩

/-! ## Claim C3 — order of append and notification -/

/-- Filtering keeps a head event belonging to the registration. -/
lemma eventsFor_cons_eq (rid : Nat) (e : LedgerEvent) (t : List LedgerEvent)
    (h : eventRegistrationId e = rid) :
    eventsFor rid (e :: t) = e :: eventsFor rid t := by
  simp [eventsFor, List.filter_cons, h]

/-- Filtering drops a head event of another registration. -/
lemma eventsFor_cons_ne (rid : Nat) (e : LedgerEvent) (t : List LedgerEvent)
    (h : eventRegistrationId e ≠ rid) :
    eventsFor rid (e :: t) = eventsFor rid t := by
  simp [eventsFor, List.filter_cons, h]

/-- Row count of a batch with its head split off. -/
lemma totalChildRows_cons (r : RegistrationRecord) (l : List RegistrationRecord) :
    totalChildRows (r :: l) = r.children.length + totalChildRows l := by
  simp [totalChildRows]

/-- One unfolding of the append loop. -/
lemma run_append_phase_cons (r : RegistrationRecord) (rest : List RegistrationRecord)
    (rowCount : Nat) :
    run_append_phase (r :: rest) rowCount =
      LedgerEvent.notifyFamily r.registration_id ::
      LedgerEvent.appendRows r.registration_id (rowCount + 1) r.children.length ::
      run_append_phase rest (rowCount + r.children.length) := rfl

/-- A registration absent from the batch has no events in the trace. -/
lemma eventsFor_run_append_of_not_mem :
    ∀ (batch : List RegistrationRecord) (rowCount rid : Nat),
      rid ∉ batch.map (fun r => r.registration_id) →
      eventsFor rid (run_append_phase batch rowCount) = [] := by
  intro batch
  induction batch with
  | nil => intro rowCount rid _; rfl
  | cons r rest ih =>
    intro rowCount rid hrid
    simp only [List.map_cons, List.mem_cons, not_or] at hrid
    rw [run_append_phase_cons,
      eventsFor_cons_ne _ _ _ (by simpa [eventRegistrationId] using Ne.symm hrid.1),
      eventsFor_cons_ne _ _ _ (by simpa [eventRegistrationId] using Ne.symm hrid.1)]
    exact ih (rowCount + r.children.length) rid hrid.2

/-- C3 (counterexample).  For a concrete one-registration batch the
first event of the registration's trace is the notification, not the
ledger write: `process_registration` sends the confirmation e-mail
*before* inserting the rows, so "the ledger rows are written first …
and only then is the notification triggered" is false as stated. -/
theorem append_phase_notify_first_counterexample :
    run_append_phase [traceRegistration7] 5 =
      [LedgerEvent.notifyFamily 7, LedgerEvent.appendRows 7 6 1] ∧
    (eventsFor 7 (run_append_phase [traceRegistration7] 5)).head? =
      some (LedgerEvent.notifyFamily 7) ∧
    eventsFor 7 (run_append_phase [traceRegistration7] 5) ≠
      [LedgerEvent.appendRows 7 6 1, LedgerEvent.notifyFamily 7] := by
  refine ⟨by decide, by decide, by decide⟩

/-- C3 (amended).  For every batch with pairwise distinct identifiers
and every starting offset, the trace of the append phase contains, for
the `i`-th registration, exactly the two adjacent events
*notification first, then the ledger write* — the write starting at
`offset + (child rows of the previous registrations) + 1` and spanning
one row per child — before the loop moves to the next registration
(whose events all come later, as the characterization shows for every
index). -/
theorem append_phase_event_characterization :
    ∀ (batch : List RegistrationRecord) (rowCount i : Nat) (hi : i < batch.length),
      (batch.map (fun r => r.registration_id)).Nodup →
      eventsFor (batch[i].registration_id) (run_append_phase batch rowCount) =
        [LedgerEvent.notifyFamily (batch[i].registration_id),
         LedgerEvent.appendRows (batch[i].registration_id)
           (rowCount + totalChildRows (batch.take i) + 1)
           (batch[i].children.length)] := by
  intro batch
  induction batch with
  | nil => intro rowCount i hi; simp at hi
  | cons r rest ih =>
    intro rowCount i hi hnodup
    simp only [List.map_cons, List.nodup_cons] at hnodup
    cases i with
    | zero =>
      have hrest : eventsFor r.registration_id
          (run_append_phase rest (rowCount + r.children.length)) = [] :=
        eventsFor_run_append_of_not_mem rest _ _ hnodup.1
      simp only [List.getElem_cons_zero, List.take_zero]
      rw [run_append_phase_cons,
        eventsFor_cons_eq _ _ _ (by simp [eventRegistrationId]),
        eventsFor_cons_eq _ _ _ (by simp [eventRegistrationId]),
        hrest]
      simp [totalChildRows]
    | succ j =>
      have hj : j < rest.length := by simpa using hi
      have hgetmem : rest[j] ∈ rest := List.getElem_mem hj
      have hne : r.registration_id ≠ (rest[j]).registration_id := by
        intro hcontr
        exact hnodup.1 (hcontr ▸ List.mem_map_of_mem _ hgetmem)
      have hih := ih (rowCount + r.children.length) j hj hnodup.2
      simp only [List.getElem_cons_succ, List.take_succ_cons]
      rw [run_append_phase_cons,
        eventsFor_cons_ne _ _ _ (by simpa [eventRegistrationId] using hne),
        eventsFor_cons_ne _ _ _ (by simpa [eventRegistrationId] using hne),
        hih, totalChildRows_cons]
      have harith : rowCount + r.children.length + totalChildRows (rest.take j) + 1 =
          rowCount + (r.children.length + totalChildRows (rest.take j)) + 1 := by omega
      rw [harith]

/-- C3 (witness).  The characterization applied to a concrete
two-registration batch at index 1: the second registration's events are
the notification followed by a write starting right after the first
registration's single child row. -/
theorem append_phase_event_characterization_witness :
    (1 < ([traceRegistration1, traceRegistration2] : List RegistrationRecord).length) ∧
    (([traceRegistration1, traceRegistration2] : List RegistrationRecord).map
      (fun r => r.registration_id)).Nodup ∧
    eventsFor 2 (run_append_phase [traceRegistration1, traceRegistration2] 0) =
      [LedgerEvent.notifyFamily 2, LedgerEvent.appendRows 2 2 2] :=
  ⟨by decide, by decide,
   append_phase_event_characterization [traceRegistration1, traceRegistration2]
     0 1 (by decide) (by decide)⟩

/-! ## Claim C10 — primary parent with empty home address -/

/-- C10 (confirmed).  Constructing a primary (non-secondary) parent
whose home address is the empty string raises no error whenever the
email and phone validations pass: the source line that builds the
intended `ValueError` never raises it, so the parent record is produced
with the empty, falsy home address kept unchanged. -/
theorem primary_parent_empty_home_address_no_error :
    ∀ (detectLocale : String → FormLocale)
      (lastName firstName emailAddress phoneNumber : String)
      (locale : FormLocale) (email phone : String),
      format_email_address emailAddress = .ok email →
      format_phone_number phoneNumber = .ok phone →
      mkParent detectLocale lastName firstName emailAddress phoneNumber "" locale false =
        .ok { last_name := format_last_name lastName locale
              first_name := format_first_name firstName locale
              fullname := format_fullname (format_last_name lastName locale)
                (format_first_name firstName locale) locale
              email_address := email
              phone_number := phone
              home_address := ""
              locale := locale } := by
  intro det ln fn ea pn loc email phone he hp
  unfold mkParent
  simp [he, hp]

/-- C10 (witness).  The theorem applied to a concrete primary parent
with valid email and phone and an empty home address. -/
theorem primary_parent_empty_home_address_no_error_witness :
    format_email_address " John@X.com " = .ok "john@x.com" ∧
    format_phone_number "912345678" = .ok "+84.0912345678" ∧
    mkParent (fun _ => FormLocale.eng) "DOE" "John" " John@X.com " "912345678" ""
      FormLocale.fra false =
      .ok { last_name := "DOE", first_name := "John", fullname := "John DOE",
            email_address := "john@x.com", phone_number := "+84.0912345678",
            home_address := "", locale := FormLocale.fra } :=
  ⟨by decide, by decide, by
    have h := primary_parent_empty_home_address_no_error (fun _ => FormLocale.eng)
      "DOE" "John" " John@X.com " "912345678" FormLocale.fra "john@x.com"
      "+84.0912345678" (by decide) (by decide)
    rw [h]
    decide⟩

/-! ## Claim C9 — no child from a blank group -/

/-- Padding a row with empty strings never changes a field read with
default `""`. -/
lemma getD_append_replicate_empty (row : List String) (k i : Nat) :
    (row ++ List.replicate k "").getD i "" = row.getD i "" := by
  by_cases h : i < row.length
  · rw [List.getD_append _ _ _ _ h]
  · have hr : row.getD i "" = "" := List.getD_eq_default _ _ (by omega)
    rw [hr, List.getD_append_right _ _ _ _ (by omega)]
    rcases Nat.lt_or_ge (i - row.length) k with h3 | h3
    · simp [List.getD, List.getElem?_replicate, h3]
    · exact List.getD_eq_default _ _ (by simpa using h3)

/-- The child-collection loop produces exactly one child per group
whose first field is non-blank after trimming — blank groups contribute
nothing, and a present group that fails validation aborts the whole
row, so a successful run has one child per present group. -/
lemma parseChildGroups_length :
    ∀ (groups : List (List Nat)) (row : List String) (loc : FormLocale)
      (children : List ChildRecord),
      parseChildGroups row loc groups = .ok children →
      children.length =
        (groups.filter
          (fun fields => !(stripChars (fieldValue row (fields.getD 0 1)).data).isEmpty)).length := by
  intro groups
  induction groups with
  | nil =>
    intro row loc children h
    simp [parseChildGroups] at h
    simp [← h]
  | cons g gs ih =>
    intro row loc children h
    unfold parseChildGroups at h
    cases h1 : parse_child row g loc with
    | error e => rw [h1] at h; cases h
    | ok childOpt =>
      rw [h1] at h
      cases h2 : parseChildGroups row loc gs with
      | error e => rw [h2] at h; cases h
      | ok cs =>
        rw [h2] at h
        by_cases hblank : (stripChars (fieldValue row (g.getD 0 1)).data).isEmpty
        · have hnone : childOpt = none := by
            unfold parse_child at h1
            rw [if_pos hblank] at h1
            injection h1 with h1e
            exact h1e.symm
          subst hnone
          injection h with hch
          have hcc : cs = children := hch
          rw [List.filter_cons_of_neg (by rw [hblank]; decide)]
          rw [← hcc]
          exact ih row loc cs h2
        · have hsome : ∃ c, childOpt = some c := by
            unfold parse_child at h1
            rw [if_neg hblank] at h1
            cases hmk : mkChild (fieldValue row (g.getD 0 1)) (fieldValue row (g.getD 1 1))
                (fieldValue row (g.getD 2 1)) (fieldValue row (g.getD 3 1)) loc with
            | error e => rw [hmk] at h1; cases h1
            | ok c =>
              rw [hmk] at h1
              injection h1 with h1e
              exact ⟨c, h1e.symm⟩
          rcases hsome with ⟨c, rfl⟩
          injection h with hch
          have hcc : c :: cs = children := hch
          have hb : (stripChars (fieldValue row (g.getD 0 1)).data).isEmpty = false := by
            cases hE : (stripChars (fieldValue row (g.getD 0 1)).data).isEmpty
            · rfl
            · exact absurd hE hblank
          rw [List.filter_cons_of_pos (by rw [hb]; decide)]
          rw [← hcc]
          simp [ih row loc cs h2]

/-- C9 (confirmed).  Whenever `from_row` succeeds, the registration
holds exactly one child per child-field group whose first field is
non-blank after trimming: a group with a blank first field contributes
no child at all — never a partial or invalid entity — and this count is
read off the original (unpadded) row. -/
theorem no_child_from_blank_group :
    ∀ (detectLocale : String → FormLocale) (row : List String) (locale : FormLocale)
      (reg : RegistrationRecord),
      from_row detectLocale row locale = .ok (some reg) →
      reg.children.length =
        (CHILDREN_FIELDS.filter
          (fun fields => !(stripChars (fieldValue row (fields.getD 0 1)).data).isEmpty)).length := by
  intro det row loc reg h
  unfold from_row at h
  by_cases hrow : row.isEmpty
  · rw [if_pos hrow] at h
    injection h with h1
    cases h1
  · rw [if_neg hrow] at h
    cases hdt : parseDateTimeRow (fieldValue (padRow row) REGISTRATION_TIME_FIELD) with
    | none => rw [hdt] at h; cases h
    | some t =>
      rw [hdt] at h
      cases hch : parseChildGroups (padRow row) loc CHILDREN_FIELDS with
      | error e => rw [hch] at h; cases h
      | ok children =>
        rw [hch] at h
        cases hpar : parseParentGroups det (padRow row) loc false PARENTS_FIELDS with
        | error e => rw [hpar] at h; cases h
        | ok parents =>
          rw [hpar] at h
          injection h with h1
          injection h1 with h2
          have hregc : reg.children = children := by rw [← h2]; rfl
          rw [hregc, parseChildGroups_length CHILDREN_FIELDS (padRow row) loc children hch]
          apply congrArg List.length
          apply List.filter_congr
          intro fields _
          unfold fieldValue padRow
          rw [getD_append_replicate_empty]

set_option maxRecDepth 1000000 in
/-- C9 (witness).  The theorem applied to the specification's
end-to-end sample row: one present child group, one child. -/
theorem no_child_from_blank_group_witness :
    from_row (fun _ => FormLocale.eng) sampleRow FormLocale.fra =
      .ok (some sampleRegistration) ∧
    sampleRegistration.children.length =
      (CHILDREN_FIELDS.filter
        (fun fields =>
          !(stripChars (fieldValue sampleRow (fields.getD 0 1)).data).isEmpty)).length :=
  ⟨by decide,
   no_child_from_blank_group (fun _ => FormLocale.eng) sampleRow FormLocale.fra
     sampleRegistration (by decide)⟩

/-! ## Claim C8 (continued) — the amended casing theorem -/

/-- A word made only of non-space characters is consumed into the
accumulator in one pass. -/
lemma wordsAux_no_space_prefix :
    ∀ (w : List Char), (∀ c ∈ w, isSpaceChar c = false) →
      ∀ (t acc : List Char), wordsAux (w ++ t) acc = wordsAux t (w.reverse ++ acc) := by
  intro w
  induction w with
  | nil => intro _ t acc; simp
  | cons c cs ih =>
    intro h t acc
    have hc : isSpaceChar c = false := h c (by simp)
    show wordsAux (c :: (cs ++ t)) acc = _
    rw [wordsAux, hc]
    simp only [Bool.false_eq_true, if_false]
    rw [ih (fun x hx => h x (by simp [hx])) t (c :: acc)]
    simp

/-- Every character of a produced word comes from the input or the
accumulator. -/
lemma mem_wordsAux_chars :
    ∀ (l acc w : List Char), w ∈ wordsAux l acc → ∀ c ∈ w, c ∈ l ∨ c ∈ acc := by
  intro l
  induction l with
  | nil =>
    intro acc w hw c hc
    by_cases hacc : acc.isEmpty
    · simp [wordsAux, hacc] at hw
    · simp [wordsAux, hacc] at hw
      subst hw
      right
      simpa using hc
  | cons d ds ih =>
    intro acc w hw c hc
    by_cases hd : isSpaceChar d
    · by_cases hacc : acc.isEmpty
      · rw [wordsAux, if_pos hd, if_pos hacc] at hw
        rcases ih [] w hw c hc with h | h
        · left; simp [h]
        · simp at h
      · rw [wordsAux, if_pos hd, if_neg hacc] at hw
        rcases List.mem_cons.mp hw with rfl | hw2
        · right; simpa using hc
        · rcases ih [] w hw2 c hc with h | h
          · left; simp [h]
          · simp at h
    · rw [wordsAux, if_neg hd] at hw
      rcases ih (d :: acc) w hw c hc with h | h
      · left; simp [h]
      · rcases List.mem_cons.mp h with rfl | h2
        · left; simp
        · right; exact h2

/-- Produced words are non-empty and space-free (given a space-free
accumulator). -/
lemma wordsAux_words_wellformed :
    ∀ (l acc w : List Char), (∀ c ∈ acc, isSpaceChar c = false) →
      w ∈ wordsAux l acc → w ≠ [] ∧ ∀ c ∈ w, isSpaceChar c = false := by
  intro l
  induction l with
  | nil =>
    intro acc w hacc hw
    by_cases he : acc.isEmpty
    · simp [wordsAux, he] at hw
    · simp [wordsAux, he] at hw
      subst hw
      refine ⟨by simpa [List.isEmpty_iff] using he, ?_⟩
      intro c hc
      exact hacc c (by simpa using hc)
  | cons d ds ih =>
    intro acc w hacc hw
    by_cases hd : isSpaceChar d
    · by_cases he : acc.isEmpty
      · rw [wordsAux, if_pos hd, if_pos he] at hw
        exact ih [] w (by simp) hw
      · rw [wordsAux, if_pos hd, if_neg he] at hw
        rcases List.mem_cons.mp hw with rfl | hw2
        · refine ⟨by simpa [List.isEmpty_iff] using he, ?_⟩
          intro c hc
          exact hacc c (by simpa using hc)
        · exact ih [] w (by simp) hw2
    · rw [wordsAux, if_neg hd] at hw
      refine ih (d :: acc) w ?_ hw
      intro c hc
      rcases List.mem_cons.mp hc with rfl | h2
      · simpa using hd
      · exact hacc c h2

/-- Splitting a space-join of well-formed words recovers the words. -/
lemma splitWords_joinSpace :
    ∀ (ws : List (List Char)),
      (∀ w ∈ ws, w ≠ [] ∧ ∀ c ∈ w, isSpaceChar c = false) →
      splitWords (joinSpace ws) = ws := by
  intro ws
  induction ws with
  | nil => intro _; rfl
  | cons w rest ih =>
    intro h
    have hw := h w (by simp)
    cases rest with
    | nil =>
      show wordsAux (joinSpace [w]) [] = [w]
      have : joinSpace [w] = w ++ [] := by simp [joinSpace]
      rw [this, wordsAux_no_space_prefix w hw.2 [] []]
      rw [wordsAux]
      have hne : (w.reverse ++ []).isEmpty = false := by
        simp [List.isEmpty_iff, hw.1]
      rw [hne]
      simp
    | cons w2 rest2 =>
      show wordsAux (joinSpace (w :: w2 :: rest2)) [] = w :: w2 :: rest2
      have hjoin : joinSpace (w :: w2 :: rest2) = w ++ (' ' :: joinSpace (w2 :: rest2)) := rfl
      rw [hjoin, wordsAux_no_space_prefix w hw.2 _ []]
      rw [wordsAux]
      have hsp : isSpaceChar ' ' = true := by decide
      rw [hsp]
      have hne : (w.reverse ++ []).isEmpty = false := by
        simp [List.isEmpty_iff, hw.1]
      simp only [if_true, hne, Bool.false_eq_true, if_false]
      have hrest := ih (fun x hx => h x (by simp [hx]))
      rw [show wordsAux (joinSpace (w2 :: rest2)) [] = splitWords (joinSpace (w2 :: rest2)) from rfl,
        hrest]
      simp

/-- Every character of a space-join comes from some word or is the
separator. -/
lemma mem_joinSpace_chars :
    ∀ (ws : List (List Char)) (c : Char), c ∈ joinSpace ws →
      (∃ w ∈ ws, c ∈ w) ∨ c = ' ' := by
  intro ws
  induction ws with
  | nil => intro c hc; simp [joinSpace] at hc
  | cons w rest ih =>
    intro c hc
    cases rest with
    | nil =>
      left
      exact ⟨w, by simp, by simpa [joinSpace] using hc⟩
    | cons w2 rest2 =>
      rw [show joinSpace (w :: w2 :: rest2) = w ++ (' ' :: joinSpace (w2 :: rest2)) from rfl] at hc
      rcases List.mem_append.mp hc with h | h
      · left; exact ⟨w, by simp, h⟩
      · rcases List.mem_cons.mp h with rfl | h2
        · right; rfl
        · rcases ih c h2 with ⟨w3, hw3, hcw3⟩ | rfl
          · left; exact ⟨w3, by simp [hw3], hcw3⟩
          · right; rfl

/-- Mapping a function that fixes every element is the identity. -/
lemma list_map_id_of_mem {α : Type} (l : List α) (f : α → α) (h : ∀ a ∈ l, f a = a) :
    l.map f = l := by
  induction l with
  | nil => rfl
  | cons a as ih =>
    rw [List.map_cons, h a (by simp), ih (fun x hx => h x (by simp [hx]))]

/-- C8 (amended).  Name casing is *not* locale-dependent: for every
locale — the Korean-tagged one included — the same transform is applied
(first-name word components capitalized, last name upper-cased, after
punctuation stripping and whitespace collapsing), because the source
never inspects the locale argument.  Korean names written in a caseless
script pass through only because the case maps fix every such
character: for any name all of whose characters are caseless, both
formatters return exactly the normalized name. -/
theorem name_casing_locale_independent :
    (∀ (name : String) (loc1 loc2 : FormLocale),
      format_first_name name loc1 = format_first_name name loc2 ∧
      format_last_name name loc1 = format_last_name name loc2) ∧
    (∀ name : String,
      (∀ c ∈ name.data, toUpperChar c = c ∧ toLowerChar c = c) →
      format_last_name name FormLocale.kor = normalize_name name ∧
      format_first_name name FormLocale.kor = normalize_name name) := by
  constructor
  · intro name l1 l2
    exact ⟨rfl, rfl⟩
  · intro name h
    have hbasechars : ∀ c ∈ replacePunctuation name.data, c = ' ' ∨ c ∈ name.data := by
      intro c hc
      rcases List.mem_map.mp hc with ⟨a, ha, hfa⟩
      by_cases hp : isPunctuationChar a
      · left; rw [← hfa]; simp [hp]
      · right; rw [← hfa]; simpa [hp] using ha
    have hwprops : ∀ w ∈ splitWords (replacePunctuation name.data),
        w ≠ [] ∧ ∀ c ∈ w, isSpaceChar c = false := by
      intro w hw
      exact wordsAux_words_wellformed (replacePunctuation name.data) [] w (by simp) hw
    have hcaseless : ∀ w ∈ splitWords (replacePunctuation name.data),
        ∀ c ∈ w, toUpperChar c = c ∧ toLowerChar c = c := by
      intro w hw c hc
      have hcl : c ∈ replacePunctuation name.data ∨ c ∈ ([] : List Char) :=
        mem_wordsAux_chars (replacePunctuation name.data) [] w hw c hc
      rcases hcl with hcl | hcl
      · rcases hbasechars c hcl with rfl | hcn
        · have : isSpaceChar ' ' = false := (hwprops w hw).2 _ hc
          simp [isSpaceChar] at this
        · exact h c hcn
      · simp at hcl
    constructor
    · show String.mk ((String.mk (joinSpace (splitWords (replacePunctuation name.data)))).data.map
        toUpperChar) = normalize_name name
      unfold normalize_name
      apply congrArg String.mk
      apply list_map_id_of_mem
      intro c hc
      rcases mem_joinSpace_chars _ c hc with ⟨w, hw, hcw⟩ | rfl
      · exact (hcaseless w hw c hcw).1
      · decide
    · show String.mk (joinSpace ((splitWords
        (String.mk (joinSpace (splitWords (replacePunctuation name.data)))).data).map
          capitalizeLoweredWord)) = normalize_name name
      unfold normalize_name
      apply congrArg String.mk
      rw [show (String.mk (joinSpace (splitWords (replacePunctuation name.data)))).data =
        joinSpace (splitWords (replacePunctuation name.data)) from rfl]
      rw [splitWords_joinSpace _ hwprops]
      apply congrArg joinSpace
      apply list_map_id_of_mem
      intro w hw
      cases w with
      | nil => rfl
      | cons c cs =>
        have hc := hcaseless _ hw
        show toUpperChar (toLowerChar c) :: cs.map toLowerChar = c :: cs
        rw [(hc c (by simp)).2, (hc c (by simp)).1]
        rw [list_map_id_of_mem cs toLowerChar (fun x hx => (hc x (by simp [hx])).2)]

/-- C8 (witness).  The caseless-pass-through part of the amended
theorem applied to a concrete Hangul name. -/
theorem name_casing_locale_independent_witness :
    format_last_name "김 수현" FormLocale.kor = normalize_name "김 수현" ∧
    format_first_name "김 수현" FormLocale.kor = normalize_name "김 수현" :=
  ⟨(name_casing_locale_independent.2 "김 수현" (by decide)).1,
   (name_casing_locale_independent.2 "김 수현" (by decide)).2⟩
